import Mathlib

/-!
Shallow embedding of `etcdfs/etcdfs.py`, the FUSE bridge exposing an etcd
key-value store as a filesystem.

Byte strings (Python 2 `str`) are modelled as `List Char`.  The etcd client
is modelled as a record of response functions (one per remote call), and
each FUSE operation is a pure function returning either an exception or a
result paired with the ordered list of completed store calls, so that the
values written back to the store are observable in theorems.
-/

deriving instance DecidableEq for Except

/-- Byte strings of the Python source are modelled as lists of characters. -/
abbrev Str := List Char

/-- Python `s.lstrip("/")`: drop every leading `'/'`. -/
def lstripSlash (s : Str) : Str := s.dropWhile (· == '/')

/-- Python `s.rstrip("/")`: drop every trailing `'/'`. -/
def rstripSlash (s : Str) : Str := (lstripSlash s.reverse).reverse

/-- Python `s.strip("/")`: drop leading and trailing `'/'`. -/
def stripSlash (s : Str) : Str := rstripSlash (lstripSlash s)

/-- Python `s.startswith(p)`. -/
def strBeginsWith : Str → Str → Bool
  | _, [] => true
  | [], _ :: _ => false
  | c :: s, d :: t => c == d && strBeginsWith s t

/-- Python `s.endswith(p)`. -/
def strEndsWith (s p : Str) : Bool := strBeginsWith s.reverse p.reverse

/-- Python 2 `posixpath.join(a, b)` (two-argument form). -/
def posixJoin (a b : Str) : Str :=
  if strBeginsWith b ['/'] then b
  else if a = [] ∨ strEndsWith a ['/'] then a ++ b
  else a ++ '/' :: b

/-- Python `s.replace(old, new, 1)`: replace the first occurrence of `old`
(if any) by `r`.  When `old` is empty, Python prepends `r`. -/
def replaceFirst (s old r : Str) : Str :=
  match s with
  | [] => if strBeginsWith [] old then r else []
  | c :: t =>
      if strBeginsWith (c :: t) old then r ++ (c :: t).drop old.length
      else c :: replaceFirst t old r

/-- Python `s.ljust(w)`: pad on the right with spaces up to width `w`. -/
def ljust (s : Str) (w : Nat) : Str := s ++ List.replicate (w - s.length) ' '

/-- Python `s * n` for strings. -/
def strMul (s : Str) (n : Nat) : Str := (List.replicate n s).flatten

/-- Python `s.split("/")`. -/
def splitSlash : Str → List Str
  | [] => [[]]
  | c :: t =>
      if c = '/' then [] :: splitSlash t
      else
        match splitSlash t with
        | [] => [[c]]
        | h :: r => (c :: h) :: r

/-- Component loop of Python 2 `posixpath.normpath`: fold the split
components, dropping `""` and `"."` and resolving `".."`. -/
def normpathComps (initialSlashes : Nat) : List Str → List Str → List Str
  | acc, [] => acc
  | acc, comp :: rest =>
      if comp = [] ∨ comp = ['.'] then normpathComps initialSlashes acc rest
      else if comp ≠ ['.', '.'] ∨ (initialSlashes = 0 ∧ acc = []) ∨
              (acc ≠ [] ∧ acc.getLast? = some ['.', '.']) then
        normpathComps initialSlashes (acc ++ [comp]) rest
      else if acc ≠ [] then normpathComps initialSlashes acc.dropLast rest
      else normpathComps initialSlashes acc rest

/-- Python 2 `posixpath.normpath`, the normal form of a POSIX path. -/
def normpath (p : Str) : Str :=
  if p = [] then ['.']
  else
    let initialSlashes : Nat :=
      if strBeginsWith p ['/'] then
        if strBeginsWith p ['/', '/'] ∧ ¬ strBeginsWith p ['/', '/', '/'] then 2 else 1
      else 0
    let newComps := normpathComps initialSlashes [] (splitSlash p)
    let res := List.replicate initialSlashes '/' ++ List.intercalate ['/'] newComps
    if res = [] then ['.'] else res

/-! Linux errno constants used by the source. -/

def EPERM : Nat := 1
def ENOENT : Nat := 2
def EACCES : Nat := 13
def EEXIST : Nat := 17
def ENOTDIR : Nat := 20
def EISDIR : Nat := 21
def EINVAL : Nat := 22
def ENOTEMPTY : Nat := 39
def EBADFD : Nat := 77

/-! Constants from the Python `stat` module. -/

def S_IFDIR : Nat := 0o40000
def S_IFREG : Nat := 0o100000
def S_IXUSR : Nat := 0o100

/-- Exceptions that can cross the bridge.  An `etcd.EtcdException` carries a
`payload` attribute that is either `None` (modelled `none`) or a dict whose
`errorCode` entry may be absent (modelled `some none`) or a number
(`some (some c)`).  `python-etcd` raises `EtcdKeyNotFound` exactly for
payloads with `errorCode = 100`.  `FuseOSError` carries an errno.
`typeError` stands for Python's `TypeError` (e.g. subscripting `None`),
`other` for any further non-etcd exception. -/
inductive Exc where
  | etcd (payload : Option (Option Nat))
  | fuse (errno : Nat)
  | typeError
  | attributeError
  | other
deriving DecidableEq, Repr

/-- Whether an exception is an `etcd.EtcdException`. -/
def isEtcdExc : Exc → Bool
  | .etcd _ => true
  | _ => false

/-- Whether an exception is `etcd.EtcdKeyNotFound` (etcd error code 100). -/
def isKeyNotFound : Exc → Bool
  | .etcd (some (some 100)) => true
  | _ => false

/-- Mapping of etcd error code to linux errno (`ETCD_CODE_TO_ERRNO`). -/
def ETCD_CODE_TO_ERRNO (code : Nat) : Option Nat :=
  if code = 100 then some ENOENT
  else if code = 101 then some EBADFD
  else if code = 102 then some EISDIR
  else if code = 104 then some ENOTDIR
  else if code = 105 then some EEXIST
  else if code = 107 then some EACCES
  else if code = 108 then some ENOTEMPTY
  else if code = 110 then some EPERM
  else none

/-- The `handle_etcd_errors` decorator: catch `etcd.EtcdException`, look the
payload's `errorCode` up in the table (falling back to `EINVAL`; a falsy
code also yields `EINVAL`) and re-raise as `FuseOSError`.  A payload of
`None` makes `payload.get` itself raise `AttributeError`.  Every non-etcd
exception passes through unchanged. -/
def handle_etcd_errors {α : Type} (r : Except Exc α) : Except Exc α :=
  match r with
  | .error (.etcd payload) =>
      match payload with
      | none => .error .attributeError
      | some code =>
          match code with
          | some c =>
              if c = 0 then .error (.fuse EINVAL)
              else .error (.fuse ((ETCD_CODE_TO_ERRNO c).getD EINVAL))
          | none => .error (.fuse EINVAL)
  | r => r

/-- An etcd node as returned by `python-etcd` (`EtcdResult`): missing JSON
fields default to `None` (for `key`, `value` and the two indices) or
`False` (for `dir`). -/
structure Node where
  key : Option Str
  dir : Bool
  value : Option Str
  children : List Node
  createdIndex : Option Nat
  modifiedIndex : Option Nat

/-- A completed store call, in the order the bridge issued it. -/
inductive Call where
  | read (key : Str)
  | write (key : Str) (value : Option Str) (dir : Bool) (prevExist : Option Bool)
  | delete (key : Str) (dir : Bool)
deriving DecidableEq, Repr

/-- The etcd client, modelled as the responses its calls would produce. -/
structure Client where
  readRes : Str → Except Exc Node
  writeRes : Str → Option Str → Bool → Option Bool → Except Exc Node
  deleteRes : Str → Bool → Except Exc Unit

/-- The state of `EtcdFSOperations`: client handle and immutable mount
context. -/
structure FS where
  client : Client
  basedir : Str
  uid : Nat
  gid : Nat
  mode : Nat

/-- `EtcdFSOperations.__init__`: the basedir is normalized to
`"/%s" % basedir.strip("/")`. -/
def FS.init (client : Client) (basedir : Str) (uid gid mode : Nat) : FS :=
  { client := client, basedir := '/' :: stripSlash basedir,
    uid := uid, gid := gid, mode := mode }

/-- The stat struct synthesized by `etcd_node_to_stat`.  The Python floats
`st_mtime`/`st_atime`/`st_ctime` hold version counters, modelled as `Nat`. -/
structure Stat where
  st_ino : Nat
  st_mode : Nat
  st_nlink : Nat
  st_uid : Nat
  st_gid : Nat
  st_size : Nat
  st_mtime : Nat
  st_atime : Nat
  st_ctime : Nat
deriving DecidableEq, Repr

/-- `EtcdFSOperations.etcd_node_to_stat`.  For a non-directory node whose
`value` is `None`, Python's `len(node.value)` raises `TypeError`. -/
def FS.etcd_node_to_stat (fs : FS) (node : Node) : Except Exc Stat :=
  if node.dir then
    .ok { st_ino := node.createdIndex.getD 0,
          st_mode := S_IFDIR ||| S_IXUSR ||| fs.mode,
          st_nlink := 1, st_uid := fs.uid, st_gid := fs.gid,
          st_size := 4096,
          st_mtime := node.modifiedIndex.getD 0,
          st_atime := node.modifiedIndex.getD 0,
          st_ctime := node.createdIndex.getD 0 }
  else
    match node.value with
    | none => .error .typeError
    | some v =>
        .ok { st_ino := node.createdIndex.getD 0,
              st_mode := S_IFREG ||| fs.mode,
              st_nlink := 1, st_uid := fs.uid, st_gid := fs.gid,
              st_size := v.length,
              st_mtime := node.modifiedIndex.getD 0,
              st_atime := node.modifiedIndex.getD 0,
              st_ctime := node.createdIndex.getD 0 }

/-- Whether a stat struct is tagged directory-typed (the `S_IFDIR` bit). -/
def statIsDir (st : Stat) : Bool := st.st_mode.testBit 14

/-- `EtcdFSOperations._path_to_key`. -/
def FS.path_to_key (fs : FS) (path : Str) : Str :=
  rstripSlash (posixJoin fs.basedir (lstripSlash path))

/-- `EtcdFSOperations._key_to_path`.  The Python default `dirkey=None`
(and a falsy empty dirkey) resolves to `self.basedir`. -/
def FS.key_to_path (fs : FS) (key : Str) (dirkey : Option Str) : Str :=
  let dk := match dirkey with
            | some d => if d = [] then fs.basedir else d
            | none => fs.basedir
  let r := lstripSlash (replaceFirst key dk [])
  if r = [] then ['/'] else r

/-- `EtcdFSOperations.getattr` (wrapped by `handle_etcd_errors`). -/
def FS.getattr (fs : FS) (path : Str) : Except Exc (Stat × List Call) :=
  handle_etcd_errors (
    let key := fs.path_to_key path
    match fs.client.readRes key with
    | .error e => .error e
    | .ok res =>
        match fs.etcd_node_to_stat res with
        | .error e => .error e
        | .ok st => .ok (st, [Call.read key]))

/-- `EtcdFSOperations.read` (wrapped): slice `res.value[offset:offset+size]`;
on a directory node `res.value` is `None` and slicing raises `TypeError`. -/
def FS.read (fs : FS) (path : Str) (size offset : Nat) :
    Except Exc (Str × List Call) :=
  handle_etcd_errors (
    let key := fs.path_to_key path
    match fs.client.readRes key with
    | .error e => .error e
    | .ok res =>
        match res.value with
        | none => .error .typeError
        | some v => .ok ((v.drop offset).take size, [Call.read key]))

/-- Loop body of `EtcdFSOperations.readdir` over `res.children`. -/
def readdirChildren (fs : FS) (dirkey : Str) : List Node → Except Exc (List (Str × Stat × Nat))
  | [] => .ok []
  | n :: rest =>
      match n.key with
      | none => readdirChildren fs dirkey rest
      | some k =>
          if rstripSlash k = dirkey then readdirChildren fs dirkey rest
          else
            let name := lstripSlash (replaceFirst k dirkey [])
            if name = [] then readdirChildren fs dirkey rest
            else
              match fs.etcd_node_to_stat n with
              | .error e => .error e
              | .ok attrs =>
                  match readdirChildren fs dirkey rest with
                  | .error e => .error e
                  | .ok es => .ok ((name, attrs, 0) :: es)

/-- A directory listing entry: Python returns the plain names `"."`/`".."`
and `(name, attrs, 0)` tuples for children. -/
inductive DirEntry where
  | name (s : Str)
  | entry (s : Str) (attrs : Stat) (off : Nat)
deriving DecidableEq, Repr

/-- `EtcdFSOperations.readdir` (wrapped): `_ensure_dir`, then emit `"."`,
`".."` and one tuple per surviving child. -/
def FS.readdir (fs : FS) (path : Str) : Except Exc (List DirEntry × List Call) :=
  handle_etcd_errors (
    let dirkey := fs.path_to_key path
    match fs.client.readRes dirkey with
    | .error e => .error e
    | .ok res =>
        if !res.dir then .error (.fuse ENOTDIR)
        else
          match readdirChildren fs dirkey res.children with
          | .error e => .error e
          | .ok es =>
              .ok (DirEntry.name ['.'] :: DirEntry.name ['.', '.'] ::
                     es.map (fun x => DirEntry.entry x.1 x.2.1 x.2.2),
                   [Call.read dirkey]))

/-- `EtcdFSOperations.create`: NOT wrapped by `handle_etcd_errors`. -/
def FS.create (fs : FS) (path : Str) : Except Exc (Nat × List Call) :=
  let key := fs.path_to_key path
  match fs.client.writeRes key (some []) false (some false) with
  | .error e => .error e
  | .ok _ => .ok (0, [Call.write key (some []) false (some false)])

/-- `EtcdFSOperations.mkdir` (wrapped): directory write with
`prevExist=False`. -/
def FS.mkdir (fs : FS) (path : Str) : Except Exc (Nat × List Call) :=
  handle_etcd_errors (
    let dirkey := fs.path_to_key path
    match fs.client.writeRes dirkey none true (some false) with
    | .error e => .error e
    | .ok _ => .ok (0, [Call.write dirkey none true (some false)]))

/-- `EtcdFSOperations.rmdir` (wrapped): `delete(key, dir=True)`. -/
def FS.rmdir (fs : FS) (path : Str) : Except Exc (Nat × List Call) :=
  handle_etcd_errors (
    let key := fs.path_to_key path
    match fs.client.deleteRes key true with
    | .error e => .error e
    | .ok _ => .ok (0, [Call.delete key true]))

/-- `EtcdFSOperations.unlink` (wrapped): `delete(key)` with default
`dir=False`. -/
def FS.unlink (fs : FS) (path : Str) : Except Exc (Nat × List Call) :=
  handle_etcd_errors (
    let key := fs.path_to_key path
    match fs.client.deleteRes key false with
    | .error e => .error e
    | .ok _ => .ok (0, [Call.delete key false]))

/-- `EtcdFSOperations.truncate`: NOT wrapped by `handle_etcd_errors`.  When
the stored length equals the requested one the function returns before any
write-back. -/
def FS.truncate (fs : FS) (path : Str) (length : Nat) : Except Exc (Nat × List Call) :=
  let key := fs.path_to_key path
  match fs.client.readRes key with
  | .error e => .error e
  | .ok res =>
      match res.value with
      | none => .error .typeError
      | some value =>
          let old_length := value.length
          if old_length = length then .ok (0, [Call.read key])
          else
            let new_value := if old_length > length then value.take length
                             else ljust value length
            match fs.client.writeRes key (some new_value) false none with
            | .error e => .error e
            | .ok _ => .ok (0, [Call.read key, Call.write key (some new_value) false none])

/-- `EtcdFSOperations.write` (wrapped).  For a non-zero offset the current
value is fetched inside a `try` whose `except etcd.EtcdKeyNotFound` branch
computes `"" * offset + data`; `_ensure_key` raises `FuseOSError(EISDIR)`
on a directory node, and slicing a `None` value raises `TypeError`. -/
def FS.write (fs : FS) (path data : Str) (offset : Nat) : Except Exc (Nat × List Call) :=
  handle_etcd_errors (
    let key := fs.path_to_key path
    let valueAndLog : Except Exc (Str × List Call) :=
      if offset ≠ 0 then
        match fs.client.readRes key with
        | .ok res =>
            if res.dir then .error (.fuse EISDIR)
            else
              match res.value with
              | none => .error .typeError
              | some old =>
                  .ok (ljust (old.take offset) offset ++ data ++
                         old.drop (offset + data.length),
                       [Call.read key])
        | .error e =>
            if isKeyNotFound e then .ok (strMul [] offset ++ data, [])
            else .error e
      else .ok (data, [])
    match valueAndLog with
    | .error e => .error e
    | .ok (value, log) =>
        match fs.client.writeRes key (some value) false none with
        | .error e => .error e
        | .ok _ => .ok (data.length, log ++ [Call.write key (some value) false none]))

/-- A client all of whose calls fail with the given exception. -/
def failClient (e : Exc) : Client :=
  { readRes := fun _ => .error e,
    writeRes := fun _ _ _ _ => .error e,
    deleteRes := fun _ _ => .error e }

/-- A client all of whose calls succeed, reads returning the given node. -/
def constClient (n : Node) : Client :=
  { readRes := fun _ => .ok n,
    writeRes := fun _ _ _ _ => .ok n,
    deleteRes := fun _ _ => .ok () }

/-- A client whose reads raise `EtcdKeyNotFound` but whose writes succeed. -/
def absentClient (n : Node) : Client :=
  { readRes := fun _ => .error (.etcd (some (some 100))),
    writeRes := fun _ _ _ _ => .ok n,
    deleteRes := fun _ _ => .ok () }

/-- A sample regular-file node used for concrete instances. -/
def fileNode : Node :=
  { key := some "/b/f".toList, dir := false, value := some "hello".toList,
    children := [], createdIndex := some 3, modifiedIndex := some 5 }

/-- A sample directory node (directories carry no value) used for concrete
instances. -/
def dirNode : Node :=
  { key := some "/b/d".toList, dir := true, value := none,
    children := [], createdIndex := some 1, modifiedIndex := some 2 }

/-! Helper lemmas about the Python string primitives. -/

theorem lstripSlash_cons (c : Char) (t : Str) :
    lstripSlash (c :: t) = if c = '/' then lstripSlash t else c :: t := by
  simp [lstripSlash, List.dropWhile_cons]

theorem lstripSlash_head (s : Str) : (lstripSlash s).head? ≠ some '/' := by
  induction s with
  | nil => simp [lstripSlash]
  | cons c t ih =>
      rw [lstripSlash_cons]
      split_ifs with h
      · exact ih
      · simpa using h

theorem lstripSlash_of_head (s : Str) (h : s.head? ≠ some '/') :
    lstripSlash s = s := by
  cases s with
  | nil => rfl
  | cons c t =>
      rw [lstripSlash_cons, if_neg]
      intro hc
      exact h (by simp [hc])

theorem lstripSlash_append (u v : Str) :
    lstripSlash (u ++ v) =
      if lstripSlash u = [] then lstripSlash v else lstripSlash u ++ v := by
  induction u with
  | nil => simp [lstripSlash]
  | cons c t ih =>
      by_cases h : c = '/'
      · subst h
        rw [List.cons_append, lstripSlash_cons, if_pos rfl, ih, lstripSlash_cons,
          if_pos rfl]
      · rw [List.cons_append, lstripSlash_cons, if_neg h, lstripSlash_cons, if_neg h,
          if_neg (by simp)]
        rfl

theorem getLast_cons_of_ne (c : Char) (t : Str) (h : t ≠ []) :
    (c :: t).getLast? = t.getLast? := by
  cases t with
  | nil => exact absurd rfl h
  | cons d r => exact List.getLast?_cons_cons

theorem rstripSlash_append (x y : Str) :
    rstripSlash (x ++ y) =
      if rstripSlash y = [] then rstripSlash x else x ++ rstripSlash y := by
  unfold rstripSlash
  rw [List.reverse_append, lstripSlash_append]
  split_ifs with h1 h2 h2
  · rfl
  · exact absurd (by rw [h1]; rfl) h2
  · exact absurd (by simpa using congrArg List.reverse h2) h1
  · simp [List.reverse_append]

theorem rstripSlash_single (c : Char) :
    rstripSlash [c] = if c = '/' then [] else [c] := by
  by_cases h : c = '/' <;> simp [rstripSlash, lstripSlash, h]

theorem rstripSlash_head (s : Str) (h : rstripSlash s ≠ []) :
    (rstripSlash s).head? = s.head? := by
  cases s with
  | nil => simp [rstripSlash, lstripSlash] at h
  | cons c t =>
      rw [show (c :: t) = [c] ++ t from rfl, rstripSlash_append] at h ⊢
      split_ifs at h ⊢ with ht
      · rw [rstripSlash_single] at h ⊢
        split_ifs at h ⊢ with hc
        · exact absurd rfl h
        · rfl
      · rfl

theorem rstripSlash_getLast (s : Str) : (rstripSlash s).getLast? ≠ some '/' := by
  unfold rstripSlash
  rw [show ((lstripSlash s.reverse).reverse.getLast? = (lstripSlash s.reverse).head?) from
    by rw [← List.head?_reverse, List.reverse_reverse]]
  exact lstripSlash_head _

theorem rstripSlash_of_getLast (s : Str) (h : s.getLast? ≠ some '/') :
    rstripSlash s = s := by
  unfold rstripSlash
  rw [lstripSlash_of_head _ (by rw [List.head?_reverse]; exact h), List.reverse_reverse]

theorem rstripSlash_eq_nil (s : Str) (h : rstripSlash s = []) :
    s.head? = some '/' ∨ s = [] := by
  cases s with
  | nil => right; rfl
  | cons c t =>
      left
      by_cases hc : c = '/'
      · simp [hc]
      · exfalso
        rw [show (c :: t) = [c] ++ t from rfl, rstripSlash_append] at h
        split_ifs at h with ht
        · rw [rstripSlash_single, if_neg hc] at h
          simp at h
        · simp at h

theorem strBeginsWith_append (B rest : Str) :
    strBeginsWith (B ++ rest) B = true := by
  induction B with
  | nil => cases rest <;> rfl
  | cons b B' ih => simp [strBeginsWith, ih]

theorem replaceFirst_self (B rest r : Str) :
    replaceFirst (B ++ rest) B r = r ++ rest := by
  have hbw : strBeginsWith (B ++ rest) B = true := strBeginsWith_append B rest
  cases h : B ++ rest with
  | nil =>
      have hB : B = [] := by
        cases B with
        | nil => rfl
        | cons _ _ => simp at h
      subst hB
      have hr : rest = [] := by simpa using h
      subst hr
      simp [replaceFirst, strBeginsWith]
  | cons c t =>
      rw [h] at hbw
      simp only [replaceFirst, hbw, if_true]
      rw [← h, List.drop_left]

theorem strBeginsWith_slash (s : Str) :
    strBeginsWith s ['/'] = true ↔ s.head? = some '/' := by
  cases s with
  | nil => simp [strBeginsWith]
  | cons c t => simp [strBeginsWith]

theorem strEndsWith_slash (s : Str) :
    strEndsWith s ['/'] = true ↔ s.getLast? = some '/' := by
  unfold strEndsWith
  rw [show (['/'] : Str).reverse = ['/'] from rfl, strBeginsWith_slash,
    List.head?_reverse]

theorem posixJoin_root (q : Str) (hq : q.head? ≠ some '/') :
    posixJoin ['/'] q = '/' :: q := by
  unfold posixJoin
  rw [if_neg (by rw [strBeginsWith_slash]; exact hq),
    if_pos (Or.inr (by rw [strEndsWith_slash]; rfl))]
  rfl

theorem posixJoin_nonroot (s q : Str) (hs : s ≠ []) (hlast : s.getLast? ≠ some '/')
    (hq : q.head? ≠ some '/') :
    posixJoin ('/' :: s) q = ('/' :: s) ++ '/' :: q := by
  unfold posixJoin
  rw [if_neg (by rw [strBeginsWith_slash]; exact hq), if_neg]
  rintro (h | h)
  · simp at h
  · rw [strEndsWith_slash, getLast_cons_of_ne _ _ hs] at h
    exact hlast h

/-! Claim theorems. -/

/-- C7: the error-translation table maps each listed etcd error code to the
listed errno (100 to `ENOENT`, 101 to `EBADFD`, 102 to `EISDIR`, 104 to
`ENOTDIR`, 105 to `EEXIST`, 107 to `EACCES`, 108 to `ENOTEMPTY`, 110 to
`EPERM`) and every other code falls back to `EINVAL`. -/
theorem etcd_code_translation_table :
    ETCD_CODE_TO_ERRNO 100 = some ENOENT ∧
    ETCD_CODE_TO_ERRNO 101 = some EBADFD ∧
    ETCD_CODE_TO_ERRNO 102 = some EISDIR ∧
    ETCD_CODE_TO_ERRNO 104 = some ENOTDIR ∧
    ETCD_CODE_TO_ERRNO 105 = some EEXIST ∧
    ETCD_CODE_TO_ERRNO 107 = some EACCES ∧
    ETCD_CODE_TO_ERRNO 108 = some ENOTEMPTY ∧
    ETCD_CODE_TO_ERRNO 110 = some EPERM ∧
    ∀ c : Nat, c ∉ [100, 101, 102, 104, 105, 107, 108, 110] →
      (ETCD_CODE_TO_ERRNO c).getD EINVAL = EINVAL := by
  refine ⟨rfl, rfl, rfl, rfl, rfl, rfl, rfl, rfl, ?_⟩
  intro c hc
  simp only [ETCD_CODE_TO_ERRNO]
  split_ifs with h1 h2 h3 h4 h5 h6 h7 h8
  all_goals first
    | rfl
    | (subst_vars; simp at hc)

/-- C7 witness: an unlisted code such as 999 falls back to `EINVAL`. -/
theorem etcd_code_translation_table_witness :
    (ETCD_CODE_TO_ERRNO 999).getD EINVAL = EINVAL :=
  etcd_code_translation_table.2.2.2.2.2.2.2.2 999 (by decide)

/-- C10: whenever `etcd_node_to_stat` produces a stat struct, the access
time equals the modification time, and both are the node's
`modifiedIndex` (or 0 when absent). -/
theorem stat_atime_eq_mtime (fs : FS) (node : Node) (st : Stat)
    (h : fs.etcd_node_to_stat node = .ok st) :
    st.st_atime = st.st_mtime ∧ st.st_mtime = node.modifiedIndex.getD 0 := by
  unfold FS.etcd_node_to_stat at h
  split_ifs at h with hd
  · rw [Except.ok.injEq] at h
    subst h
    exact ⟨rfl, rfl⟩
  · cases hv : node.value with
    | none => rw [hv] at h; simp at h
    | some v =>
        rw [hv] at h
        rw [Except.ok.injEq] at h
        subst h
        exact ⟨rfl, rfl⟩

/-- The stat struct synthesized for `fileNode` under uid 0, gid 0,
mode 0o600. -/
def fileNodeStat : Stat :=
  { st_ino := 3, st_mode := 33152, st_nlink := 1, st_uid := 0, st_gid := 0,
    st_size := 5, st_mtime := 5, st_atime := 5, st_ctime := 3 }

/-- C10 witness: concrete evaluation on `fileNode`. -/
theorem stat_atime_eq_mtime_witness :
    (FS.init (constClient fileNode) "b".toList 0 0 384).etcd_node_to_stat fileNode =
      .ok fileNodeStat ∧
    (fileNodeStat.st_atime = fileNodeStat.st_mtime ∧
      fileNodeStat.st_mtime = fileNode.modifiedIndex.getD 0) :=
  ⟨by decide,
   stat_atime_eq_mtime (FS.init (constClient fileNode) "b".toList 0 0 384)
     fileNode fileNodeStat (by decide)⟩

/-- C3 (code bug): writing `"ab"` at offset 3 to an absent key stores just
`"ab"` — the source computes `"" * offset + data`, so the gap `[0, offset)`
is NOT padded with fill bytes as the spec requires (`" " * offset + data`
was evidently intended). -/
theorem write_missing_key_offset_gap_unpadded :
    FS.write (FS.init (absentClient fileNode) "b".toList 0 0 384) "/f".toList
        "ab".toList 3 =
      .ok (2, [Call.write "/b/f".toList (some "ab".toList) false none]) ∧
    "ab".toList ≠ strMul [' '] 3 ++ "ab".toList :=
  ⟨by decide, by decide⟩

/-- C9 (amended): `_path_to_key("/")` returns the normalized base key for
every non-root base key, but returns the EMPTY string (not the base key)
when the base key is the store root `"/"`. -/
theorem path_to_key_root (cl : Client) (u g m : Nat) (b : Str) :
    FS.path_to_key (FS.init cl b u g m) "/".toList =
      (if stripSlash b = [] then [] else '/' :: stripSlash b) := by
  have hq : lstripSlash "/".toList = [] := rfl
  show rstripSlash (posixJoin ('/' :: stripSlash b) (lstripSlash "/".toList)) = _
  rw [hq]
  by_cases hs : stripSlash b = []
  · rw [hs, if_pos rfl, posixJoin_root [] (by simp)]
    rw [show ('/' :: ([] : Str)) = ['/'] from rfl, rstripSlash_single]
    simp
  · rw [if_neg hs]
    have hs_last : (stripSlash b).getLast? ≠ some '/' := rstripSlash_getLast _
    have h1 : rstripSlash ('/' :: ([] : Str)) = [] := by
      rw [show ('/' :: ([] : Str)) = ['/'] from rfl, rstripSlash_single]
      simp
    rw [posixJoin_nonroot (stripSlash b) [] hs hs_last (by simp),
      rstripSlash_append, if_pos h1]
    exact rstripSlash_of_getLast _ (by rw [getLast_cons_of_ne _ _ hs]; exact hs_last)

/-- C9 counterexample: with the store root `"/"` as base key (the default
of the bootstrap layer), `_path_to_key("/")` yields the empty string rather
than the base key itself. -/
theorem path_to_key_root_counterexample :
    FS.path_to_key (FS.init (constClient fileNode) "/".toList 0 0 384) "/".toList
      = [] ∧
    ([] : Str) ≠ "/".toList :=
  ⟨by decide, by decide⟩

theorem replaceFirst_all (B r : Str) : replaceFirst B B r = r := by
  have h := replaceFirst_self B [] r
  rwa [List.append_nil, List.append_nil] at h

theorem round_trip_raw (s q : Str) (hs_last : s.getLast? ≠ some '/')
    (hq : q.head? ≠ some '/') :
    (if lstripSlash (replaceFirst (rstripSlash (posixJoin ('/' :: s) q)) ('/' :: s) []) = []
     then ['/']
     else lstripSlash (replaceFirst (rstripSlash (posixJoin ('/' :: s) q)) ('/' :: s) [])) =
    (if rstripSlash q = [] then ['/'] else rstripSlash q) := by
  by_cases hrq : rstripSlash q = []
  · have hq0 : q = [] := by
      rcases rstripSlash_eq_nil q hrq with h1 | h1
      · exact absurd h1 hq
      · exact h1
    subst hq0
    by_cases hs : s = []
    · subst hs
      decide
    · rw [posixJoin_nonroot s [] hs hs_last (by simp)]
      have h1 : rstripSlash ('/' :: ([] : Str)) = [] := by
        rw [show ('/' :: ([] : Str)) = ['/'] from rfl, rstripSlash_single]
        simp
      rw [rstripSlash_append, if_pos h1,
        rstripSlash_of_getLast ('/' :: s)
          (by rw [getLast_cons_of_ne _ _ hs]; exact hs_last),
        replaceFirst_all]
      simp [lstripSlash, rstripSlash]
  · have hhead : (rstripSlash q).head? = q.head? := rstripSlash_head q hrq
    have hlq : lstripSlash (rstripSlash q) = rstripSlash q :=
      lstripSlash_of_head _ (by rw [hhead]; exact hq)
    by_cases hs : s = []
    · subst hs
      rw [posixJoin_root q hq, show ('/' :: q) = ['/'] ++ q from rfl,
        rstripSlash_append, if_neg hrq, replaceFirst_self, List.nil_append, hlq]
    · rw [posixJoin_nonroot s q hs hs_last hq,
        show ('/' :: q) = ['/'] ++ q from rfl, rstripSlash_append]
      have hy : rstripSlash (['/'] ++ q) = ['/'] ++ rstripSlash q := by
        rw [rstripSlash_append, if_neg hrq]
      have hcond : ¬ ((['/'] : Str) ++ rstripSlash q = []) := by simp
      rw [hy, if_neg hcond, replaceFirst_self, List.nil_append,
        show (['/'] : Str) ++ rstripSlash q = '/' :: rstripSlash q from rfl,
        lstripSlash_cons, if_pos rfl, hlq]

/-- C5 (amended): for every path `p` and every base key, the round trip
`_key_to_path(_path_to_key(p))` yields `p` with leading and trailing
separators stripped — the RELATIVE normalized form — or `"/"` when that is
empty; it does not restore the absolute normalized path. -/
theorem key_path_round_trip_relative (cl : Client) (u g m : Nat) (b p : Str) :
    FS.key_to_path (FS.init cl b u g m) (FS.path_to_key (FS.init cl b u g m) p) none =
      (if stripSlash p = [] then ['/'] else stripSlash p) :=
  round_trip_raw (stripSlash b) (lstripSlash p) (rstripSlash_getLast _)
    (lstripSlash_head p)

/-- C5 counterexample: at path `"/foo"` (already in normal form) with the
root base key, the round trip yields the relative name `"foo"`, which
differs from the normalized form `normpath("/foo") = "/foo"`. -/
theorem key_path_round_trip_counterexample :
    FS.key_to_path (FS.init (constClient fileNode) "/".toList 0 0 384)
        (FS.path_to_key (FS.init (constClient fileNode) "/".toList 0 0 384)
          "/foo".toList) none
      = "foo".toList ∧
    normpath "/foo".toList = "/foo".toList ∧
    "foo".toList ≠ "/foo".toList :=
  ⟨by decide, by decide, by decide⟩

theorem ljust_take (old : Str) (offset : Nat) :
    ljust (old.take offset) offset =
      old.take offset ++ List.replicate (offset - old.length) ' ' := by
  unfold ljust
  congr 2
  rw [List.length_take]
  omega

/-- C2: a write of `data` at non-zero `offset` to an existing non-directory
key stores the existing bytes `[0, offset)` padded with spaces to `offset`
if shorter, then `data`, then the existing bytes past `offset + len(data)`,
and returns `len(data)`. -/
theorem write_nonzero_offset_existing (fs : FS) (path data : Str) (offset : Nat)
    (node wnode : Node) (old : Str)
    (hoff : offset ≠ 0) (hdir : node.dir = false) (hval : node.value = some old)
    (hread : fs.client.readRes (fs.path_to_key path) = .ok node)
    (hwrite : ∀ v, fs.client.writeRes (fs.path_to_key path) v false none = .ok wnode) :
    FS.write fs path data offset =
      .ok (data.length,
        [Call.read (fs.path_to_key path),
         Call.write (fs.path_to_key path)
           (some (old.take offset ++ List.replicate (offset - old.length) ' ' ++
             data ++ old.drop (offset + data.length)))
           false none]) := by
  unfold FS.write
  simp only [hread, hdir, hval, hwrite, if_pos hoff, Bool.false_eq_true, if_false,
    List.cons_append, List.nil_append]
  rw [ljust_take]
  rfl

/-- C2 witness: concrete write of `"XY"` at offset 2 over `"hello"`. -/
theorem write_nonzero_offset_existing_witness :
    (2 : Nat) ≠ 0 ∧
    FS.write (FS.init (constClient fileNode) "b".toList 0 0 384) "/f".toList
        "XY".toList 2 =
      .ok ("XY".toList.length,
        [Call.read "/b/f".toList,
         Call.write "/b/f".toList
           (some ("hello".toList.take 2 ++
             List.replicate (2 - "hello".toList.length) ' ' ++
             "XY".toList ++ "hello".toList.drop (2 + "XY".toList.length)))
           false none]) :=
  ⟨by decide,
   write_nonzero_offset_existing (FS.init (constClient fileNode) "b".toList 0 0 384)
     "/f".toList "XY".toList 2 fileNode fileNode "hello".toList
     (by decide) rfl rfl rfl (fun v => rfl)⟩

/-- C6: truncate on an existing non-directory key: equal length is a no-op
with no write-back; a shorter length stores the first `length` bytes; a
longer length stores the value padded with spaces to `length`. -/
theorem truncate_cases (fs : FS) (path : Str) (length : Nat)
    (node wnode : Node) (v : Str)
    (hdir : node.dir = false) (hval : node.value = some v)
    (hread : fs.client.readRes (fs.path_to_key path) = .ok node)
    (hwrite : ∀ val, fs.client.writeRes (fs.path_to_key path) val false none = .ok wnode) :
    (v.length = length →
      FS.truncate fs path length = .ok (0, [Call.read (fs.path_to_key path)])) ∧
    (length < v.length →
      FS.truncate fs path length =
        .ok (0, [Call.read (fs.path_to_key path),
                 Call.write (fs.path_to_key path) (some (v.take length)) false none])) ∧
    (v.length < length →
      FS.truncate fs path length =
        .ok (0, [Call.read (fs.path_to_key path),
                 Call.write (fs.path_to_key path)
                   (some (v ++ List.replicate (length - v.length) ' ')) false none])) := by
  unfold FS.truncate
  simp only [hread, hval, hwrite]
  refine ⟨fun h => ?_, fun h => ?_, fun h => ?_⟩
  · rw [if_pos h]
  · rw [if_neg (by omega), if_pos (by omega)]
  · rw [if_neg (by omega), if_neg (by omega)]
    rfl

/-- C6 witness: truncating `"hello"` to length 2 writes back `"he"`. -/
theorem truncate_cases_witness :
    FS.truncate (FS.init (constClient fileNode) "b".toList 0 0 384) "/f".toList 2 =
      .ok (0, [Call.read "/b/f".toList,
               Call.write "/b/f".toList (some ("hello".toList.take 2)) false none]) :=
  (truncate_cases (FS.init (constClient fileNode) "b".toList 0 0 384) "/f".toList 2
    fileNode fileNode "hello".toList rfl rfl rfl (fun val => rfl)).2.1 (by decide)

/-- C4 (amended): `read` performs no directory check; on a directory node
(whose value is absent) slicing the `None` value raises `TypeError`, which
propagates untranslated instead of the is-a-directory error. -/
theorem read_on_directory_type_error (fs : FS) (path : Str) (size offset : Nat)
    (node : Node) (hread : fs.client.readRes (fs.path_to_key path) = .ok node)
    (hdir : node.dir = true) (hval : node.value = none) :
    FS.read fs path size offset = .error .typeError := by
  unfold FS.read
  simp only [hread, hval]
  rfl

/-- C4 witness: concrete read of a directory node. -/
theorem read_on_directory_type_error_witness :
    dirNode.dir = true ∧
    FS.read (FS.init (constClient dirNode) "b".toList 0 0 384) "/d".toList 4 0 =
      .error .typeError :=
  ⟨rfl,
   read_on_directory_type_error (FS.init (constClient dirNode) "b".toList 0 0 384)
     "/d".toList 4 0 dirNode rfl rfl rfl⟩

/-- C4 counterexample: reading a directory node yields `TypeError`, not the
claimed `FuseOSError(EISDIR)`. -/
theorem read_on_directory_counterexample :
    FS.read (FS.init (constClient dirNode) "b".toList 0 0 384) "/d".toList 4 0 =
      .error .typeError ∧
    (Except.error Exc.typeError : Except Exc (Str × List Call)) ≠
      .error (.fuse EISDIR) :=
  ⟨by decide, by decide⟩

theorem isKeyNotFound_of_not_etcd (e : Exc) (he : isEtcdExc e = false) :
    isKeyNotFound e = false := by
  cases e <;> simp_all [isEtcdExc, isKeyNotFound]

theorem handle_etcd_coded {α : Type} (c : Nat) :
    handle_etcd_errors (α := α) (.error (.etcd (some (some c)))) =
      .error (.fuse ((ETCD_CODE_TO_ERRNO c).getD EINVAL)) := by
  show (if c = 0 then (Except.error (Exc.fuse EINVAL) : Except Exc α)
        else .error (.fuse ((ETCD_CODE_TO_ERRNO c).getD EINVAL))) = _
  by_cases hc : c = 0
  · subst hc
    rfl
  · rw [if_neg hc]

theorem handle_non_etcd {α : Type} (e : Exc) (he : isEtcdExc e = false) :
    handle_etcd_errors (α := α) (.error e) = .error e := by
  cases e <;> simp_all [isEtcdExc, handle_etcd_errors]

/-- How each store-touching operation reacts when the store call fails:
the wrapped operations translate an etcd exception carrying error code `c`
through the table and pass a non-etcd exception `e` through unchanged,
while `create` and `truncate` (which lack the decorator) re-raise even the
etcd exception unchanged. -/
def errorTranslationBehavior (b path data : Str) (u g m size offset length c : Nat)
    (e : Exc) : Prop :=
  let fsE := FS.init (failClient (.etcd (some (some c)))) b u g m
  let fsO := FS.init (failClient e) b u g m
  let T : Exc := .fuse ((ETCD_CODE_TO_ERRNO c).getD EINVAL)
  let E : Exc := .etcd (some (some c))
  (FS.getattr fsE path = .error T) ∧
  (FS.read fsE path size offset = .error T) ∧
  (FS.write fsE path data offset = .error T) ∧
  (FS.mkdir fsE path = .error T) ∧
  (FS.rmdir fsE path = .error T) ∧
  (FS.unlink fsE path = .error T) ∧
  (FS.readdir fsE path = .error T) ∧
  (FS.create fsE path = .error E) ∧
  (FS.truncate fsE path length = .error E) ∧
  (FS.getattr fsO path = .error e) ∧
  (FS.read fsO path size offset = .error e) ∧
  (FS.write fsO path data offset = .error e) ∧
  (FS.mkdir fsO path = .error e) ∧
  (FS.rmdir fsO path = .error e) ∧
  (FS.unlink fsO path = .error e) ∧
  (FS.readdir fsO path = .error e) ∧
  (FS.create fsO path = .error e) ∧
  (FS.truncate fsO path length = .error e)

/-- C1 (amended): getattr, read, write, mkdir, rmdir, unlink and readdir
translate store exceptions through the table and let non-store exceptions
propagate unchanged, but create and truncate are NOT wrapped by the
decorator, so even store exceptions propagate from them unchanged. -/
theorem error_translation_per_operation (b path data : Str)
    (u g m size offset length c : Nat) (e : Exc) (he : isEtcdExc e = false) :
    errorTranslationBehavior b path data u g m size offset length c e := by
  have hknf : isKeyNotFound e = false := isKeyNotFound_of_not_etcd e he
  unfold errorTranslationBehavior
  refine ⟨?_, ?_, ?_, ?_, ?_, ?_, ?_, ?_, ?_, ?_, ?_, ?_, ?_, ?_, ?_, ?_, ?_, ?_⟩
  · simp only [FS.getattr, FS.init, failClient]
    exact handle_etcd_coded c
  · simp only [FS.read, FS.init, failClient]
    exact handle_etcd_coded c
  · simp only [FS.write, FS.init, failClient]
    by_cases ho : offset ≠ 0
    · rw [if_pos ho]
      by_cases h100 : isKeyNotFound (.etcd (some (some c))) = true
      · rw [if_pos h100]
        exact handle_etcd_coded c
      · rw [if_neg h100]
        exact handle_etcd_coded c
    · rw [if_neg ho]
      exact handle_etcd_coded c
  · simp only [FS.mkdir, FS.init, failClient]
    exact handle_etcd_coded c
  · simp only [FS.rmdir, FS.init, failClient]
    exact handle_etcd_coded c
  · simp only [FS.unlink, FS.init, failClient]
    exact handle_etcd_coded c
  · simp only [FS.readdir, FS.init, failClient]
    exact handle_etcd_coded c
  · simp only [FS.create, FS.init, failClient]
  · simp only [FS.truncate, FS.init, failClient]
  · simp only [FS.getattr, FS.init, failClient]
    exact handle_non_etcd e he
  · simp only [FS.read, FS.init, failClient]
    exact handle_non_etcd e he
  · simp only [FS.write, FS.init, failClient]
    by_cases ho : offset ≠ 0
    · rw [if_pos ho, if_neg (by rw [hknf]; exact Bool.false_ne_true)]
      exact handle_non_etcd e he
    · rw [if_neg ho]
      exact handle_non_etcd e he
  · simp only [FS.mkdir, FS.init, failClient]
    exact handle_non_etcd e he
  · simp only [FS.rmdir, FS.init, failClient]
    exact handle_non_etcd e he
  · simp only [FS.unlink, FS.init, failClient]
    exact handle_non_etcd e he
  · simp only [FS.readdir, FS.init, failClient]
    exact handle_non_etcd e he
  · simp only [FS.create, FS.init, failClient]
  · simp only [FS.truncate, FS.init, failClient]

/-- C1 witness: concrete instantiation with etcd code 105 and a non-store
exception. -/
theorem error_translation_per_operation_witness :
    isEtcdExc Exc.other = false ∧
    errorTranslationBehavior "b".toList "/f".toList "d".toList 0 0 384 4 1 3 105
      Exc.other :=
  ⟨by decide,
   error_translation_per_operation "b".toList "/f".toList "d".toList 0 0 384 4 1 3 105
     Exc.other (by decide)⟩

/-- C1 counterexample: `create` re-raises the store's already-exists error
(code 105) unchanged instead of the translated `FuseOSError(EEXIST)` the
claim requires. -/
theorem create_error_translation_counterexample :
    FS.create (FS.init (failClient (.etcd (some (some 105)))) "b".toList 0 0 384)
        "/f".toList = .error (.etcd (some (some 105))) ∧
    (Except.error (Exc.etcd (some (some 105))) : Except Exc (Nat × List Call)) ≠
      .error (.fuse EEXIST) :=
  ⟨by decide, by decide⟩

theorem stat_ok (fs : FS) (n : Node) (h : n.dir = true ∨ n.value ≠ none) :
    ∃ st, fs.etcd_node_to_stat n = .ok st := by
  unfold FS.etcd_node_to_stat
  split_ifs with hd
  · exact ⟨_, rfl⟩
  · cases hv : n.value with
    | none =>
        rcases h with h | h
        · exact absurd h hd
        · exact absurd hv h
    | some v => exact ⟨_, rfl⟩

/-- The entry `readdir` emits for a single child, if any: skip a missing
key, the parent's own echoed entry, and an empty relative name; otherwise
the relative name is the child key with the first occurrence of the parent
key removed and LEADING separators stripped, paired with the child's
synthesized attributes. -/
def childEntry (fs : FS) (dirkey : Str) (c : Node) : Option (Str × Stat × Nat) :=
  match c.key with
  | none => none
  | some k =>
      if rstripSlash k = dirkey then none
      else
        let name := lstripSlash (replaceFirst k dirkey [])
        if name = [] then none
        else
          match fs.etcd_node_to_stat c with
          | .ok st => some (name, st, 0)
          | .error _ => none

theorem readdirChildren_eq (fs : FS) (dirkey : Str) (cs : List Node)
    (hvals : ∀ ch ∈ cs, ch.dir = true ∨ ch.value ≠ none) :
    readdirChildren fs dirkey cs = .ok (cs.filterMap (childEntry fs dirkey)) := by
  induction cs with
  | nil => rfl
  | cons n rest ih =>
      have hn := hvals n (by simp)
      have hrest : ∀ ch ∈ rest, ch.dir = true ∨ ch.value ≠ none :=
        fun ch h => hvals ch (by simp [h])
      cases hk : n.key with
      | none => simp [readdirChildren, childEntry, hk, ih hrest]
      | some k =>
          by_cases h1 : rstripSlash k = dirkey
          · simp [readdirChildren, childEntry, hk, h1, ih hrest]
          · by_cases h2 : lstripSlash (replaceFirst k dirkey []) = []
            · simp [readdirChildren, childEntry, hk, h1, h2, ih hrest]
            · obtain ⟨st, hst⟩ := stat_ok fs n hn
              simp [readdirChildren, childEntry, hk, h1, h2, hst, ih hrest]

/-- C8 (amended): on a directory node, `readdir` returns `"."`, `".."` and
one entry per child with a present key that is neither the parent's echoed
entry nor yields an empty name; each entry carries the child key with the
parent key prefix removed and LEADING separators stripped (a trailing
separator is retained), plus synthesized attributes whose mode bit tags the
correct file/directory type. -/
theorem readdir_entries (fs : FS) (path : Str) (node : Node)
    (hread : fs.client.readRes (fs.path_to_key path) = .ok node)
    (hdir : node.dir = true)
    (hvals : ∀ ch ∈ node.children, ch.dir = true ∨ ch.value ≠ none) :
    FS.readdir fs path =
      .ok (DirEntry.name ['.'] :: DirEntry.name ['.', '.'] ::
             (node.children.filterMap (childEntry fs (fs.path_to_key path))).map
               (fun x => DirEntry.entry x.1 x.2.1 x.2.2),
           [Call.read (fs.path_to_key path)]) ∧
    (∀ ch ∈ node.children, ∀ st : Stat, fs.etcd_node_to_stat ch = .ok st →
      fs.mode < 16384 → statIsDir st = ch.dir) := by
  constructor
  · unfold FS.readdir
    simp only [hread, hdir, Bool.not_true, Bool.false_eq_true, if_false,
      readdirChildren_eq fs (fs.path_to_key path) node.children hvals]
    rfl
  · intro ch hch st hst hm
    unfold FS.etcd_node_to_stat at hst
    split_ifs at hst with hd
    · rw [Except.ok.injEq] at hst
      subst hst
      unfold statIsDir
      rw [hd]
      rw [Nat.testBit_or]
      have h14 : ((S_IFDIR ||| S_IXUSR : Nat)).testBit 14 = true := by decide
      rw [h14, Bool.true_or]
    · cases hv : ch.value with
      | none => rw [hv] at hst; simp at hst
      | some v =>
          rw [hv] at hst
          rw [Except.ok.injEq] at hst
          subst hst
          unfold statIsDir
          rw [Bool.not_eq_true] at hd
          rw [hd]
          rw [Nat.testBit_or]
          have h14 : ((S_IFREG : Nat)).testBit 14 = false := by decide
          rw [h14, Bool.false_or]
          exact Nat.testBit_lt_two_pow hm

/-- A directory child whose key carries a trailing separator. -/
def slashChild : Node :=
  { key := some "/b/c/".toList, dir := true, value := none,
    children := [], createdIndex := some 1, modifiedIndex := some 1 }

/-- A parent directory node listing `slashChild`. -/
def slashParent : Node :=
  { key := some "/b".toList, dir := true, value := none,
    children := [slashChild], createdIndex := some 1, modifiedIndex := some 1 }

/-- C8 witness: concrete directory listing of `slashParent`. -/
theorem readdir_entries_witness :
    FS.readdir (FS.init (constClient slashParent) "b".toList 0 0 0) "/".toList =
      .ok (DirEntry.name ['.'] :: DirEntry.name ['.', '.'] ::
             (slashParent.children.filterMap
               (childEntry (FS.init (constClient slashParent) "b".toList 0 0 0)
                 (FS.path_to_key (FS.init (constClient slashParent) "b".toList 0 0 0)
                   "/".toList))).map
               (fun x => DirEntry.entry x.1 x.2.1 x.2.2),
           [Call.read (FS.path_to_key (FS.init (constClient slashParent) "b".toList 0 0 0)
             "/".toList)]) :=
  (readdir_entries (FS.init (constClient slashParent) "b".toList 0 0 0) "/".toList
    slashParent rfl rfl
    (by intro ch hch; simp [slashParent] at hch; subst hch; left; rfl)).1

/-- The stat struct synthesized for `slashChild` under uid 0, gid 0,
mode 0. -/
def slashChildStat : Stat :=
  { st_ino := 1, st_mode := 16448, st_nlink := 1, st_uid := 0, st_gid := 0,
    st_size := 4096, st_mtime := 1, st_atime := 1, st_ctime := 1 }

/-- C8 counterexample: the child key `"/b/c/"` produces the listing entry
name `"c/"` — the trailing separator is NOT stripped, contradicting the
claim that entries carry the name with parent prefix and trailing
separator stripped (which would be `"c"`). -/
theorem readdir_trailing_separator_counterexample :
    FS.readdir (FS.init (constClient slashParent) "b".toList 0 0 0) "/".toList =
      .ok ([DirEntry.name ['.'], DirEntry.name ['.', '.'],
            DirEntry.entry "c/".toList slashChildStat 0],
           [Call.read "/b".toList]) ∧
    "c/".toList ≠ "c".toList :=
  ⟨by decide, by decide⟩
